import Mathlib

attribute [local semireducible] Rat.add Rat.sub Rat.mul Rat.inv

/-!
Shallow embedding of the paragraph reconstructor of `pdf_convert.py`
(`PDFConverter._extract_page_text_simple`), together with the page-level
error handling of `convert_to_text`.

Coordinates are embedded as rationals (`Rat`); PyMuPDF's `dict` page
structure is embedded as `Block`/`Line`/`Span`; Python's `" ".join` is
`joinSp`, `str.strip()` is `pyStrip`, `s.endswith("-")` is
`endsWithHyphen`, `s[:-1]` is `pyDropLast`, `s[-1]` is `pyLast`, and
`html.escape` is `htmlEscape`.

The source duplicates the reconstruction loop in an HTML-emitting branch
(lines 99-165) and a plain-text branch (lines 194-255).  Both are embedded
separately (`stepLineHtml` / `stepLineText` and the functions built on
them), and additionally once at the granularity of flush events
(`stepLineEv`), which records each emitted paragraph as its accumulated
list of line texts; simulation lemmas relate the three.
-/

namespace PdfConvert

/-- Bounding box of a line, `line["bbox"]` = (x0, y0, x1, y1);
the vertical axis grows downward, so `y0` is the top and `y1` the bottom. -/
structure BBox where
  x0 : Rat
  y0 : Rat
  x1 : Rat
  y1 : Rat
deriving DecidableEq, Repr

/-- One text span of a line (`span["text"]`). -/
structure Span where
  text : String
deriving DecidableEq, Repr

/-- One line of a text block: its spans and its bounding box. -/
structure Line where
  spans : List Span
  bbox : BBox
deriving DecidableEq, Repr

/-- One block of the page `dict`: `block["type"] == 0` is a text block with
its lines, `block["type"] == 1` is an image block. -/
inductive Block where
  | text (lines : List Line)
  | image
deriving DecidableEq, Repr

/-- The per-block mutable state of the reconstruction loop:
`para_text`, `prev_y1` and `para_start` of the source. -/
structure ParaState where
  para_text : List String
  prev_y1 : Rat
  para_start : Bool
deriving DecidableEq, Repr

/-- Python whitespace as removed by `str.strip()`. -/
def isPyWS (c : Char) : Bool :=
  c = ' ' ∨ c = '\t' ∨ c = '\n' ∨ c = '\r' ∨ c = Char.ofNat 11 ∨ c = Char.ofNat 12

/-- Python's `str.strip()`: drop leading and trailing whitespace. -/
def pyStrip (s : String) : String :=
  String.mk (((s.data.dropWhile isPyWS).reverse.dropWhile isPyWS).reverse)

/-- Python's `s.endswith("-")` (single-character suffix). -/
def endsWithHyphen (s : String) : Bool := s.data.getLast? = some '-'

/-- Python's `s[:-1]`. -/
def pyDropLast (s : String) : String := String.mk s.data.dropLast

/-- Python's `s[-1]`, the final character (callers guard non-emptiness). -/
def pyLast (s : String) : Option Char := s.data.getLast?

/-- Lines 106-110 / 201-205: concatenate the span texts and strip. -/
def lineTextOf (l : Line) : String :=
  pyStrip (String.join (l.spans.map Span.text))

/-- The punctuation set of lines 128 / 220. -/
def punctChars : List Char := ['.', '?', '!', ':', ';']

/-- Lines 127-128 / 219-220: `len(para_text) > 0 and para_text[-1] and
para_text[-1][-1] in ['.', '?', '!', ':', ';']`. -/
def lastEndsPunct (para : List String) : Bool :=
  match para.getLast? with
  | some last =>
    last != "" &&
      (match pyLast last with
       | some c => punctChars.contains c
       | none => false)
  | none => false

/-- Lines 115-131 / 210-223: the `new_para` decision.  `fx` is
`block["lines"][0]["bbox"][0]`, the x-origin of the block's first line. -/
def newParaOf (gf it fx : Rat) (s : ParaState) (l : Line) : Bool :=
  if s.para_start = false ∧ s.prev_y1 > 0 then
    decide (l.bbox.y0 - s.prev_y1 > gf * (l.bbox.y1 - l.bbox.y0)) ||
    decide (l.bbox.x0 - fx > it) ||
    lastEndsPunct s.para_text
  else
    false

/-- Lines 137-147 / 230-238: append the line text to the in-progress
paragraph, stripping a trailing hyphen when the paragraph is non-empty. -/
def appendEntry (para : List String) (t : String) : List String :=
  if para = [] then [t]
  else if endsWithHyphen t then para ++ [pyDropLast t]
  else para ++ [t]

/-- Python's `" ".join`. -/
def joinSp : List String → String
  | [] => ""
  | [t] => t
  | t :: rest => t ++ " " ++ joinSp rest

/-- Initial per-block state (lines 101-103 / 196-198):
`para_text = []`, `prev_y1 = -1`, `para_start = True`. -/
def initState : ParaState := ⟨[], -1, true⟩

/-- `block["lines"][0]["bbox"][0]` (lines 118 / 213); the default for an
empty block is irrelevant because the loop body then never runs. -/
def firstX0 (lines : List Line) : Rat :=
  match lines.head? with
  | some l => l.bbox.x0
  | none => 0

/-! ### Event-level machine

Each flush of the in-progress paragraph is recorded together with the kind
of flush, keeping the accumulated line texts as a list (the "group"). -/

/-- A flush event: a paragraph emitted at a detected boundary (lines
133-136 / 225-229), at the hard cap (lines 152-155 / 243-246), at block end
(lines 157-159 / 248-250), or the image-block placeholder (lines 161-163 /
252-255). -/
inductive Flush where
  | boundary (g : List String)
  | cap (g : List String)
  | final (g : List String)
  | image
deriving DecidableEq, Repr

/-- Lines 152-155 / 243-246: the hard-cap check performed after the line is
accumulated; `bb` is the line's box (lines 149-150 / 240-241 set
`prev_y1 = bbox[3]`, `para_start = False` just before). -/
def capCheckEv (bb : BBox) (pt : List String) (out : List Flush) :
    ParaState × List Flush :=
  if pt.length > 100 then (⟨[], bb.y1, false⟩, out ++ [Flush.cap pt])
  else (⟨pt, bb.y1, false⟩, out)

/-- The body of the per-line loop (lines 105-155 / 200-246), at flush-event
granularity. -/
def stepLineEv (gf it fx : Rat) (acc : ParaState × List Flush) (l : Line) :
    ParaState × List Flush :=
  if lineTextOf l = "" then acc
  else if newParaOf gf it fx acc.1 l = true ∧ acc.1.para_text ≠ [] then
    capCheckEv l.bbox [lineTextOf l] (acc.2 ++ [Flush.boundary acc.1.para_text])
  else
    capCheckEv l.bbox (appendEntry acc.1.para_text (lineTextOf l)) acc.2

/-- One text block (lines 100-159 / 195-250) at flush-event granularity,
including the final flush of a non-empty in-progress paragraph. -/
def blockEvents (gf it : Rat) (lines : List Line) : List Flush :=
  let r := lines.foldl (stepLineEv gf it (firstX0 lines)) (initState, [])
  if r.1.para_text ≠ [] then r.2 ++ [Flush.final r.1.para_text] else r.2

/-- All blocks of a page (lines 99-163 / 194-255) at flush-event
granularity; the per-block state is created afresh for each text block. -/
def blocksEvents (gf it : Rat) (blocks : List Block) : List Flush :=
  blocks.flatMap (fun b =>
    match b with
    | Block.text ls => blockEvents gf it ls
    | Block.image => [Flush.image])

/-- The groups (accumulated line-text lists) of the paragraph flushes, in
emission order. -/
def groupsOf (evs : List Flush) : List (List String) :=
  evs.flatMap (fun e =>
    match e with
    | Flush.boundary g => [g]
    | Flush.cap g => [g]
    | Flush.final g => [g]
    | Flush.image => [])

/-! ### Plain-text code path (lines 194-255, 262) -/

/-- Lines 243-246: hard-cap check of the plain-text branch. -/
def capCheckText (bb : BBox) (pt : List String) (out : List String) :
    ParaState × List String :=
  if pt.length > 100 then (⟨[], bb.y1, false⟩, out ++ [joinSp pt])
  else (⟨pt, bb.y1, false⟩, out)

/-- Lines 200-246: the per-line loop body of the plain-text branch; a
boundary flush appends the joined paragraph and an empty separator line
(lines 227-228). -/
def stepLineText (gf it fx : Rat) (acc : ParaState × List String) (l : Line) :
    ParaState × List String :=
  if lineTextOf l = "" then acc
  else if newParaOf gf it fx acc.1 l = true ∧ acc.1.para_text ≠ [] then
    capCheckText l.bbox [lineTextOf l] (acc.2 ++ [joinSp acc.1.para_text, ""])
  else
    capCheckText l.bbox (appendEntry acc.1.para_text (lineTextOf l)) acc.2

/-- Lines 195-250: one text block of the plain-text branch, the items
appended to `text_lines`. -/
def blockItemsText (gf it : Rat) (lines : List Line) : List String :=
  let r := lines.foldl (stepLineText gf it (firstX0 lines)) (initState, [])
  if r.1.para_text ≠ [] then r.2 ++ [joinSp r.1.para_text] else r.2

/-- Lines 194-255: all blocks; an image block appends the placeholder and
an empty separator line (lines 254-255). -/
def pageItemsText (gf it : Rat) (blocks : List Block) : List String :=
  blocks.flatMap (fun b =>
    match b with
    | Block.text ls => blockItemsText gf it ls
    | Block.image => ["[Image]", ""])

/-- Line 262: the page's plain-text result, `"\n".join(text_lines)`. -/
def extractPageTextStr (gf it : Rat) (blocks : List Block) : String :=
  String.intercalate "\n" (pageItemsText gf it blocks)

/-! ### HTML code path (lines 91-165) -/

/-- Per-character table of Python's `html.escape` (quote=True). -/
def escChar (c : Char) : List Char :=
  if c = '&' then ['&', 'a', 'm', 'p', ';']
  else if c = '<' then ['&', 'l', 't', ';']
  else if c = '>' then ['&', 'g', 't', ';']
  else if c = '"' then ['&', 'q', 'u', 'o', 't', ';']
  else if c = Char.ofNat 39 then ['&', '#', 'x', '2', '7', ';']
  else [c]

/-- Python's `html.escape(s, quote=True)`. -/
def htmlEscape (s : String) : String :=
  String.mk ((s.data.map escChar).flatten)

/-- Lines 135 / 154 / 159: one emitted HTML paragraph,
`f'<p>{html.escape(" ".join(para_text))}</p>\n'`. -/
def htmlP (s : String) : String := "<p>" ++ htmlEscape s ++ "</p>\n"

/-- Line 163: the image placeholder fragment. -/
def imageDivFrag : String := "<div class=\"image\">[Image]</div>\n"

/-- Decimal digits of a natural number (fuel-driven model of Python's
`str(int)`); the fuel `n+1` always suffices but its exact value is
irrelevant to the properties proved here. -/
def natDigitsAux : Nat → Nat → List Char
  | 0, _ => []
  | _ + 1, n =>
    if n < 10 then [Char.ofNat (48 + n)]
    else natDigitsAux n (n / 10) ++ [Char.ofNat (48 + n % 10)]

/-- Model of Python's `str(n)` for a natural number. -/
def numStr (n : Nat) : String := String.mk (natDigitsAux (n + 1) n)

/-- Line 96: the page-container opening fragment,
`f'<div class="page" id="page_{page_num+1}" data-page-number="{page_num+1}">\n'`. -/
def pageOpenFrag (pageNum : Nat) : String :=
  "<div class=\"page\" id=\"page_" ++ numStr (pageNum + 1) ++
    "\" data-page-number=\"" ++ numStr (pageNum + 1) ++ "\">\n"

/-- Lines 152-155: hard-cap check of the HTML branch. -/
def capCheckHtml (bb : BBox) (pt : List String) (out : List String) :
    ParaState × List String :=
  if pt.length > 100 then (⟨[], bb.y1, false⟩, out ++ [htmlP (joinSp pt)])
  else (⟨pt, bb.y1, false⟩, out)

/-- Lines 105-155: the per-line loop body of the HTML branch; a boundary
flush appends one `<p>` fragment (line 135). -/
def stepLineHtml (gf it fx : Rat) (acc : ParaState × List String) (l : Line) :
    ParaState × List String :=
  if lineTextOf l = "" then acc
  else if newParaOf gf it fx acc.1 l = true ∧ acc.1.para_text ≠ [] then
    capCheckHtml l.bbox [lineTextOf l] (acc.2 ++ [htmlP (joinSp acc.1.para_text)])
  else
    capCheckHtml l.bbox (appendEntry acc.1.para_text (lineTextOf l)) acc.2

/-- Lines 100-159: one text block of the HTML branch, the fragments
appended to `processed_text`. -/
def blockItemsHtml (gf it : Rat) (lines : List Line) : List String :=
  let r := lines.foldl (stepLineHtml gf it (firstX0 lines)) (initState, [])
  if r.1.para_text ≠ [] then r.2 ++ [htmlP (joinSp r.1.para_text)] else r.2

/-- Lines 99-163: all blocks of the HTML branch. -/
def pageItemsHtml (gf it : Rat) (blocks : List Block) : List String :=
  blocks.flatMap (fun b =>
    match b with
    | Block.text ls => blockItemsHtml gf it ls
    | Block.image => [imageDivFrag])

/-- Lines 96-165: the page's HTML result as the sequence of appended
fragments (`processed_text` is their concatenation). -/
def extractPageHtml (pageNum : Nat) (gf it : Rat) (blocks : List Block) :
    List String :=
  pageOpenFrag pageNum :: pageItemsHtml gf it blocks ++ ["</div>\n"]

/-! ### Markup stripping (the comparison apparatus of the mode-equivalence
claim: remove HTML tags, undo escaping, drop blank separator lines) -/

/-- Tag stripper: characters between `<` and `>` are dropped; the Boolean
is the inside-a-tag state. -/
def stripTagsChars : Bool → List Char → List Char
  | _, [] => []
  | false, c :: cs =>
    if c = '<' then stripTagsChars true cs else c :: stripTagsChars false cs
  | true, c :: cs =>
    if c = '>' then stripTagsChars false cs else stripTagsChars true cs

/-- Remove all HTML tags from a string. -/
def stripTags (s : String) : String := String.mk (stripTagsChars false s.data)

/-- Decoder for the five entities produced by `htmlEscape`; the inverse
direction of the escaping. -/
def unescChars (l : List Char) : List Char :=
  match l with
  | [] => []
  | c :: cs =>
    if c = '&' then
      if cs.take 4 = ['a', 'm', 'p', ';'] then '&' :: unescChars (cs.drop 4)
      else if cs.take 3 = ['l', 't', ';'] then '<' :: unescChars (cs.drop 3)
      else if cs.take 3 = ['g', 't', ';'] then '>' :: unescChars (cs.drop 3)
      else if cs.take 5 = ['q', 'u', 'o', 't', ';'] then '"' :: unescChars (cs.drop 5)
      else if cs.take 5 = ['#', 'x', '2', '7', ';'] then
        Char.ofNat 39 :: unescChars (cs.drop 5)
      else c :: unescChars cs
    else c :: unescChars cs
termination_by l.length
decreasing_by all_goals simp [List.length_drop] <;> omega

/-- Undo `htmlEscape`. -/
def htmlUnescape (s : String) : String := String.mk (unescChars s.data)

/-- Drop one trailing newline (each HTML fragment of the source ends in
`\n`, which is layout, not content). -/
def removeTrailNl (s : String) : String :=
  if s.data.getLast? = some '\n' then String.mk s.data.dropLast else s

/-- Strip one HTML fragment down to its text content. -/
def stripFrag (s : String) : String := htmlUnescape (removeTrailNl (stripTags s))

/-- Strip an HTML fragment sequence of markup, escaping and fragments with
no text content. -/
def stripHtmlItems (items : List String) : List String :=
  (items.map stripFrag).filter (fun t => t != "")

/-- Strip a plain-text item sequence of its blank separator lines. -/
def stripTextItems (items : List String) : List String :=
  items.filter (fun t => t != "")

/-! ### Page-level error handling (lines 272-274 and `convert_to_text`,
lines 401-442) -/

/-- The outcome of decoding one page: either its block structure, or a
raised exception (e.g. corrupt page data). -/
inductive PageResult where
  | ok (blocks : List Block)
  | err (msg : String)
deriving DecidableEq, Repr

/-- Lines 186-274 with `include_html_tags=False`,
`preserve_paragraphs=True`: the whole body sits in a `try`; on any
exception the page yields `""` (lines 272-274). -/
def extractPageTextSafe (gf it : Rat) (r : PageResult) : String :=
  match r with
  | PageResult.ok blocks => extractPageTextStr gf it blocks
  | PageResult.err _ => ""

/-- Line 433: the marker written after every page. -/
def pageBreakMarker : String := "\n\n--- Page Break ---\n\n"

/-- Lines 419-437: `convert_to_text` writes every page's extracted text
followed by the page-break marker; the chunked loop visits the pages in
order (chunking only groups garbage-collection calls), so the written file
content is this left fold of writes. -/
def convert_to_text (gf it : Rat) (pages : List PageResult) : String :=
  pages.foldl (fun acc r => acc ++ extractPageTextSafe gf it r ++ pageBreakMarker) ""

/-! ### Fallible embedding for malformed geometry

A line of the page `dict` may lack the `"bbox"` key; reading it then raises
`KeyError`, which no handler inside the loop catches — only the page-level
`except` of lines 272-274.  The machine below is the plain-text branch with
that dictionary access made explicit in `Except`. -/

/-- A line whose bounding box may be absent. -/
structure LineP where
  spans : List Span
  bbox : Option BBox
deriving DecidableEq, Repr

/-- A block over possibly-malformed lines. -/
inductive BlockP where
  | text (lines : List LineP)
  | image
deriving DecidableEq, Repr

/-- Line text of a possibly-malformed line (lines 201-205; no geometry is
touched here). -/
def lineTextP (l : LineP) : String :=
  pyStrip (String.join (l.spans.map Span.text))

/-- Lines 200-246 of the plain-text branch with explicit `KeyError` on a
missing `"bbox"`: the boundary test (lines 210-221) reads the line's box
and the block's first-line box, and line 240 (`prev_y1 = line["bbox"][3]`)
reads the line's box unconditionally. -/
def stepLineTextE (gf it : Rat) (fl : Option BBox)
    (acc : ParaState × List String) (l : LineP) :
    Except String (ParaState × List String) :=
  if lineTextP l = "" then Except.ok acc
  else
    (if acc.1.para_start = false ∧ acc.1.prev_y1 > 0 then
      match l.bbox with
      | none => Except.error "KeyError: bbox"
      | some bb =>
        match fl with
        | none => Except.error "KeyError: bbox"
        | some fb =>
          Except.ok
            (decide (bb.y0 - acc.1.prev_y1 > gf * (bb.y1 - bb.y0)) ||
             decide (bb.x0 - fb.x0 > it) ||
             lastEndsPunct acc.1.para_text)
    else Except.ok false).bind (fun np =>
      (match l.bbox with
       | none => Except.error "KeyError: bbox"
       | some bb => Except.ok bb).bind (fun bb =>
        if np = true ∧ acc.1.para_text ≠ [] then
          Except.ok (capCheckText bb [lineTextP l] (acc.2 ++ [joinSp acc.1.para_text, ""]))
        else
          Except.ok (capCheckText bb (appendEntry acc.1.para_text (lineTextP l)) acc.2)))

/-- Lines 195-250 of the plain-text branch over possibly-malformed lines;
`lines.head?.bind LineP.bbox` is the lazily-read `block["lines"][0]["bbox"]`. -/
def blockItemsTextE (gf it : Rat) (lines : List LineP) :
    Except String (List String) :=
  (lines.foldlM (stepLineTextE gf it (lines.head?.bind LineP.bbox))
      (initState, [])).map
    (fun r => if r.1.para_text ≠ [] then r.2 ++ [joinSp r.1.para_text] else r.2)

/-- Lines 194-255 over possibly-malformed lines. -/
def pageItemsTextE (gf it : Rat) (blocks : List BlockP) :
    Except String (List String) :=
  blocks.foldlM
    (fun out b =>
      match b with
      | BlockP.text ls => (blockItemsTextE gf it ls).map (fun its => out ++ its)
      | BlockP.image => Except.ok (out ++ ["[Image]", ""]))
    []

/-- Lines 186-274: the page's plain-text result with the page-level
exception handler — an internal `KeyError` makes the whole page `""`. -/
def extractPageTextP (gf it : Rat) (blocks : List BlockP) : String :=
  match pageItemsTextE gf it blocks with
  | Except.ok items => String.intercalate "\n" items
  | Except.error _ => ""

/-! ### Concrete inputs used by the examples of the specification -/

/-- A one-span line at horizontal origin `x0` spanning vertically from
`y0` (top) to `y1` (bottom). -/
def pline (t : String) (x0 y0 y1 : Rat) : Line :=
  ⟨[⟨t⟩], ⟨x0, y0, x0, y1⟩⟩

/-- Two snug consecutive lines, the first ending in a period. -/
def punctLines : List Line :=
  [pline "This is a sentence." 0 1 2, pline "Next one starts." 0 2 3]

/-- Two snug consecutive lines, the first ending in a hyphen. -/
def hyphLines : List Line :=
  [pline "informa-" 0 1 2, pline "tion" 0 2 3]

/-- A line that triggers no boundary when repeated: same box every time
(so the vertical gap is negative), no indent, no closing punctuation. -/
def wline : Line := pline "word" 0 1 2

/-- A block of 250 non-breaking lines. -/
def capLines : List Line := List.replicate 250 wline

/-- A well-formed line reading "Hello". -/
def goodLineP : LineP := ⟨[⟨"Hello"⟩], some ⟨0, 1, 50, 2⟩⟩

/-- A malformed line reading "world", with no bounding box. -/
def badLineP : LineP := ⟨[⟨"world"⟩], none⟩

/-- A page whose single text block holds a well-formed line followed by a
malformed one. -/
def c9page : List BlockP := [BlockP.text [goodLineP, badLineP]]

/-! ### Simulation: both code paths are renderings of the flush events -/

/-- The plain-text items contributed by one flush event. -/
def renderEvText : Flush → List String
  | Flush.boundary g => [joinSp g, ""]
  | Flush.cap g => [joinSp g]
  | Flush.final g => [joinSp g]
  | Flush.image => ["[Image]", ""]

/-- The HTML fragments contributed by one flush event. -/
def renderEvHtml : Flush → List String
  | Flush.boundary g => [htmlP (joinSp g)]
  | Flush.cap g => [htmlP (joinSp g)]
  | Flush.final g => [htmlP (joinSp g)]
  | Flush.image => [imageDivFrag]

/-- How an accumulated entry relates to the source line text it came from:
kept verbatim, or with a trailing hyphen stripped. -/
def entryRel (orig entry : String) : Prop :=
  entry = orig ∨ (endsWithHyphen orig = true ∧ entry = pyDropLast orig)

/-- A well-formed flushed group: non-empty, and its first entry is a
non-empty string. -/
def goodGroup (g : List String) : Prop := ∃ hd tl, g = hd :: tl ∧ hd ≠ ""

/-- The in-progress paragraph is empty or starts with a non-empty entry. -/
def headOk (para : List String) : Prop :=
  para = [] ∨ ∃ hd tl, para = hd :: tl ∧ hd ≠ ""

/-- Every flushed paragraph group is well formed and holds at most 101
entries. -/
def goodEv : Flush → Prop
  | Flush.boundary g => goodGroup g ∧ g.length ≤ 101
  | Flush.cap g => goodGroup g ∧ g.length ≤ 101
  | Flush.final g => goodGroup g ∧ g.length ≤ 101
  | Flush.image => True

/-- The non-empty trimmed line texts of a line list, in order. -/
def nonEmptyTexts (lines : List Line) : List String :=
  (lines.map lineTextOf).filter (fun t => t != "")

/-- The running invariant: the line texts processed so far correspond,
entry by entry, to the flushed groups followed by the in-progress
paragraph; the in-progress paragraph has a sound head and at most 100
entries; every emitted flush is well formed. -/
structure Inv (origs : List String) (acc : ParaState × List Flush) : Prop where
  rel : List.Forall₂ entryRel origs ((groupsOf acc.2).flatten ++ acc.1.para_text)
  hOk : headOk acc.1.para_text
  plen : acc.1.para_text.length ≤ 100
  good : ∀ e ∈ acc.2, goodEv e

lemma stepLineEv_out (gf it fx : Rat) (s : ParaState) (out : List Flush)
    (l : Line) :
    stepLineEv gf it fx (s, out) l =
      ((stepLineEv gf it fx (s, []) l).1,
        out ++ (stepLineEv gf it fx (s, []) l).2) := by
  by_cases h1 : lineTextOf l = ""
  · simp [stepLineEv, h1]
  · by_cases h2 : newParaOf gf it fx s l = true ∧ s.para_text ≠ []
    · simp [stepLineEv, capCheckEv, h1, h2]
    · by_cases h3 : (appendEntry s.para_text (lineTextOf l)).length > 100
      · simp [stepLineEv, capCheckEv, h1, h2, h3]
      · simp [stepLineEv, capCheckEv, h1, h2, h3]

lemma stepLineText_sim (gf it fx : Rat) (s : ParaState) (out : List String)
    (l : Line) :
    stepLineText gf it fx (s, out) l =
      ((stepLineEv gf it fx (s, []) l).1,
        out ++ ((stepLineEv gf it fx (s, []) l).2).flatMap renderEvText) := by
  by_cases h1 : lineTextOf l = ""
  · simp [stepLineText, stepLineEv, h1]
  · by_cases h2 : newParaOf gf it fx s l = true ∧ s.para_text ≠ []
    · simp [stepLineText, stepLineEv, capCheckText, capCheckEv, renderEvText, h1, h2]
    · by_cases h3 : (appendEntry s.para_text (lineTextOf l)).length > 100
      · simp [stepLineText, stepLineEv, capCheckText, capCheckEv, renderEvText, h1, h2, h3]
      · simp [stepLineText, stepLineEv, capCheckText, capCheckEv, renderEvText, h1, h2, h3]

lemma stepLineHtml_sim (gf it fx : Rat) (s : ParaState) (out : List String)
    (l : Line) :
    stepLineHtml gf it fx (s, out) l =
      ((stepLineEv gf it fx (s, []) l).1,
        out ++ ((stepLineEv gf it fx (s, []) l).2).flatMap renderEvHtml) := by
  by_cases h1 : lineTextOf l = ""
  · simp [stepLineHtml, stepLineEv, h1]
  · by_cases h2 : newParaOf gf it fx s l = true ∧ s.para_text ≠ []
    · simp [stepLineHtml, stepLineEv, capCheckHtml, capCheckEv, renderEvHtml, h1, h2]
    · by_cases h3 : (appendEntry s.para_text (lineTextOf l)).length > 100
      · simp [stepLineHtml, stepLineEv, capCheckHtml, capCheckEv, renderEvHtml, h1, h2, h3]
      · simp [stepLineHtml, stepLineEv, capCheckHtml, capCheckEv, renderEvHtml, h1, h2, h3]

lemma foldEv_out (gf it fx : Rat) (ls : List Line) :
    ∀ (s : ParaState) (out : List Flush),
      ls.foldl (stepLineEv gf it fx) (s, out) =
        ((ls.foldl (stepLineEv gf it fx) (s, [])).1,
          out ++ (ls.foldl (stepLineEv gf it fx) (s, [])).2) := by
  induction ls with
  | nil => intro s out; simp
  | cons l ls ih =>
    intro s out
    rcases hr : stepLineEv gf it fx (s, []) l with ⟨s1, e1⟩
    simp only [List.foldl_cons, stepLineEv_out gf it fx s out l, hr]
    rw [ih s1 (out ++ e1), ih s1 e1]
    simp

lemma foldText_sim (gf it fx : Rat) (ls : List Line) :
    ∀ (s : ParaState) (out : List String),
      ls.foldl (stepLineText gf it fx) (s, out) =
        ((ls.foldl (stepLineEv gf it fx) (s, [])).1,
          out ++ ((ls.foldl (stepLineEv gf it fx) (s, [])).2).flatMap renderEvText) := by
  induction ls with
  | nil => intro s out; simp
  | cons l ls ih =>
    intro s out
    rcases hr : stepLineEv gf it fx (s, []) l with ⟨s1, e1⟩
    simp only [List.foldl_cons, stepLineText_sim gf it fx s out l, hr]
    rw [ih s1 (out ++ e1.flatMap renderEvText)]
    rw [foldEv_out gf it fx ls s1 e1]
    simp

lemma foldHtml_sim (gf it fx : Rat) (ls : List Line) :
    ∀ (s : ParaState) (out : List String),
      ls.foldl (stepLineHtml gf it fx) (s, out) =
        ((ls.foldl (stepLineEv gf it fx) (s, [])).1,
          out ++ ((ls.foldl (stepLineEv gf it fx) (s, [])).2).flatMap renderEvHtml) := by
  induction ls with
  | nil => intro s out; simp
  | cons l ls ih =>
    intro s out
    rcases hr : stepLineEv gf it fx (s, []) l with ⟨s1, e1⟩
    simp only [List.foldl_cons, stepLineHtml_sim gf it fx s out l, hr]
    rw [ih s1 (out ++ e1.flatMap renderEvHtml)]
    rw [foldEv_out gf it fx ls s1 e1]
    simp

lemma blockItemsText_eq (gf it : Rat) (lines : List Line) :
    blockItemsText gf it lines = (blockEvents gf it lines).flatMap renderEvText := by
  simp only [blockItemsText, blockEvents]
  rw [foldText_sim gf it (firstX0 lines) lines initState []]
  rcases hr : lines.foldl (stepLineEv gf it (firstX0 lines)) (initState, []) with ⟨s1, evs⟩
  by_cases h : s1.para_text ≠ [] <;> simp [h, renderEvText]

lemma blockItemsHtml_eq (gf it : Rat) (lines : List Line) :
    blockItemsHtml gf it lines = (blockEvents gf it lines).flatMap renderEvHtml := by
  simp only [blockItemsHtml, blockEvents]
  rw [foldHtml_sim gf it (firstX0 lines) lines initState []]
  rcases hr : lines.foldl (stepLineEv gf it (firstX0 lines)) (initState, []) with ⟨s1, evs⟩
  by_cases h : s1.para_text ≠ [] <;> simp [h, renderEvHtml]

lemma pageItemsText_eq (gf it : Rat) (blocks : List Block) :
    pageItemsText gf it blocks = (blocksEvents gf it blocks).flatMap renderEvText := by
  induction blocks with
  | nil => simp [pageItemsText, blocksEvents]
  | cons b bs ih =>
    simp only [pageItemsText, blocksEvents] at ih ⊢
    rw [List.flatMap_cons, List.flatMap_cons, List.flatMap_append, ih]
    cases b with
    | text ls => dsimp only; rw [blockItemsText_eq]
    | image => dsimp only; simp [renderEvText]

lemma pageItemsHtml_eq (gf it : Rat) (blocks : List Block) :
    pageItemsHtml gf it blocks = (blocksEvents gf it blocks).flatMap renderEvHtml := by
  induction blocks with
  | nil => simp [pageItemsHtml, blocksEvents]
  | cons b bs ih =>
    simp only [pageItemsHtml, blocksEvents] at ih ⊢
    rw [List.flatMap_cons, List.flatMap_cons, List.flatMap_append, ih]
    cases b with
    | text ls => dsimp only; rw [blockItemsHtml_eq]
    | image => dsimp only; simp [renderEvHtml]

/-! ### Invariants of the event machine -/

lemma groupsOf_append (a b : List Flush) :
    groupsOf (a ++ b) = groupsOf a ++ groupsOf b := by
  simp [groupsOf]

lemma appendEntry_spec (para : List String) (t : String) :
    ∃ e, entryRel t e ∧ appendEntry para t = para ++ [e] := by
  unfold appendEntry
  split_ifs with hp hh
  · exact ⟨t, Or.inl rfl, by simp [hp]⟩
  · exact ⟨pyDropLast t, Or.inr ⟨hh, rfl⟩, rfl⟩
  · exact ⟨t, Or.inl rfl, rfl⟩

lemma goodGroup_appendEntry (para : List String) (t : String)
    (hok : headOk para) (ht : t ≠ "") : goodGroup (appendEntry para t) := by
  obtain ⟨e, _, he⟩ := appendEntry_spec para t
  rcases hok with hp | ⟨hd, tl, rfl, hne⟩
  · subst hp
    simp only [appendEntry, if_pos rfl]
    exact ⟨t, [], rfl, ht⟩
  · exact ⟨hd, tl ++ [e], by simp [he], hne⟩

lemma stepLineEv_eq_boundary (gf it fx : Rat) (s : ParaState) (out : List Flush)
    (l : Line) (h1 : ¬ lineTextOf l = "")
    (h2 : newParaOf gf it fx s l = true ∧ s.para_text ≠ []) :
    stepLineEv gf it fx (s, out) l =
      (⟨[lineTextOf l], l.bbox.y1, false⟩, out ++ [Flush.boundary s.para_text]) := by
  simp [stepLineEv, capCheckEv, h1, h2]

lemma stepLineEv_eq_cap (gf it fx : Rat) (s : ParaState) (out : List Flush)
    (l : Line) (h1 : ¬ lineTextOf l = "")
    (h2 : ¬ (newParaOf gf it fx s l = true ∧ s.para_text ≠ []))
    (h3 : (appendEntry s.para_text (lineTextOf l)).length > 100) :
    stepLineEv gf it fx (s, out) l =
      (⟨[], l.bbox.y1, false⟩,
        out ++ [Flush.cap (appendEntry s.para_text (lineTextOf l))]) := by
  simp [stepLineEv, capCheckEv, h1, h2, h3]

lemma stepLineEv_eq_app (gf it fx : Rat) (s : ParaState) (out : List Flush)
    (l : Line) (h1 : ¬ lineTextOf l = "")
    (h2 : ¬ (newParaOf gf it fx s l = true ∧ s.para_text ≠ []))
    (h3 : ¬ (appendEntry s.para_text (lineTextOf l)).length > 100) :
    stepLineEv gf it fx (s, out) l =
      (⟨appendEntry s.para_text (lineTextOf l), l.bbox.y1, false⟩, out) := by
  simp [stepLineEv, capCheckEv, h1, h2, h3]

lemma inv_step (gf it fx : Rat) (s : ParaState) (out : List Flush)
    (l : Line) (origs : List String) (h : Inv origs (s, out)) :
    Inv (origs ++ if lineTextOf l = "" then [] else [lineTextOf l])
      (stepLineEv gf it fx (s, out) l) := by
  by_cases h1 : lineTextOf l = ""
  · simpa [stepLineEv, h1] using h
  · have hrel1 : List.Forall₂ entryRel [lineTextOf l] [lineTextOf l] :=
      List.Forall₂.cons (Or.inl rfl) List.Forall₂.nil
    by_cases h2 : newParaOf gf it fx s l = true ∧ s.para_text ≠ []
    · -- boundary flush: emit the old paragraph, restart with this line
      rw [stepLineEv_eq_boundary gf it fx s out l h1 h2]
      have hgood : goodGroup s.para_text := by
        rcases h.hOk with hp | hg
        · exact absurd hp h2.2
        · exact hg
      refine ⟨?_, Or.inr ⟨lineTextOf l, [], rfl, h1⟩, by simp, ?_⟩
      · simpa [groupsOf_append, groupsOf, h1, List.append_assoc] using
          List.rel_append h.rel hrel1
      · intro e he
        rcases List.mem_append.1 he with he | he
        · exact h.good e he
        · simp only [List.mem_singleton] at he
          subst he
          exact ⟨hgood, by have hp : s.para_text.length ≤ 100 := h.plen; omega⟩
    · -- accumulate the line into the in-progress paragraph
      obtain ⟨e, hrel, happ⟩ := appendEntry_spec s.para_text (lineTextOf l)
      have hrelE : List.Forall₂ entryRel [lineTextOf l] [e] :=
        List.Forall₂.cons hrel List.Forall₂.nil
      have hlen : (appendEntry s.para_text (lineTextOf l)).length =
          s.para_text.length + 1 := by simp [happ]
      have hgood : goodGroup (appendEntry s.para_text (lineTextOf l)) :=
        goodGroup_appendEntry _ _ h.hOk h1
      by_cases h3 : (appendEntry s.para_text (lineTextOf l)).length > 100
      · -- hard cap: the grown paragraph is flushed at once
        rw [stepLineEv_eq_cap gf it fx s out l h1 h2 h3]
        refine ⟨?_, Or.inl rfl, by simp, ?_⟩
        · have hr := List.rel_append h.rel hrelE
          simpa [groupsOf_append, groupsOf, happ, h1, List.append_assoc] using hr
        · intro e' he'
          rcases List.mem_append.1 he' with he' | he'
          · exact h.good e' he'
          · simp only [List.mem_singleton] at he'
            subst he'
            exact ⟨hgood, by have hp : s.para_text.length ≤ 100 := h.plen; omega⟩
      · rw [stepLineEv_eq_app gf it fx s out l h1 h2 h3]
        refine ⟨?_, Or.inr ?_,
          by show (appendEntry s.para_text (lineTextOf l)).length ≤ 100; omega,
          h.good⟩
        · have hr := List.rel_append h.rel hrelE
          simpa [happ, h1, List.append_assoc] using hr
        · obtain ⟨hd, tl, heq, hne⟩ := hgood
          exact ⟨hd, tl, heq, hne⟩

lemma inv_fold (gf it fx : Rat) (ls : List Line) :
    ∀ (s : ParaState) (out : List Flush) (origs : List String),
      Inv origs (s, out) →
      Inv (origs ++ nonEmptyTexts ls) (ls.foldl (stepLineEv gf it fx) (s, out)) := by
  induction ls with
  | nil =>
    intro s out origs h
    simpa [nonEmptyTexts] using h
  | cons l ls ih =>
    intro s out origs h
    have hstep := inv_step gf it fx s out l origs h
    rcases hr : stepLineEv gf it fx (s, out) l with ⟨s1, o1⟩
    rw [hr] at hstep
    have hres := ih s1 o1 _ hstep
    simp only [List.foldl_cons, hr]
    by_cases h1 : lineTextOf l = ""
    · simpa [nonEmptyTexts, List.filter_cons, h1] using hres
    · simpa [nonEmptyTexts, List.filter_cons, h1, List.append_assoc] using hres

lemma inv_init : Inv [] (initState, ([] : List Flush)) := by
  refine ⟨by simp [groupsOf, initState], Or.inl rfl, by simp [initState], by simp⟩

lemma blockEvents_inv (gf it : Rat) (lines : List Line) :
    List.Forall₂ entryRel (nonEmptyTexts lines)
        (groupsOf (blockEvents gf it lines)).flatten ∧
      ∀ e ∈ blockEvents gf it lines, goodEv e := by
  have h := inv_fold gf it (firstX0 lines) lines initState [] [] inv_init
  rcases hr : lines.foldl (stepLineEv gf it (firstX0 lines)) (initState, []) with ⟨s1, evs⟩
  rw [hr] at h
  by_cases hp : s1.para_text ≠ []
  · have hgood : goodGroup s1.para_text := by
      rcases h.hOk with hp' | hg
      · exact absurd hp' hp
      · exact hg
    constructor
    · have := h.rel
      simpa [blockEvents, hr, hp, groupsOf_append, groupsOf] using this
    · intro e he
      simp only [blockEvents, hr, hp, if_pos hp] at he
      rcases List.mem_append.1 he with he | he
      · exact h.good e he
      · simp only [List.mem_singleton] at he
        subst he
        exact ⟨hgood, by have hp : s1.para_text.length ≤ 100 := h.plen; omega⟩
  · constructor
    · have := h.rel
      simp only [not_not] at hp
      simpa [blockEvents, hr, hp] using this
    · intro e he
      simp only [not_not] at hp
      simp only [blockEvents, hr, hp] at he
      exact h.good e (by simpa [hp] using he)

lemma blocksEvents_good (gf it : Rat) (blocks : List Block) :
    ∀ e ∈ blocksEvents gf it blocks, goodEv e := by
  intro e he
  simp only [blocksEvents, List.mem_flatMap] at he
  obtain ⟨b, _, hb⟩ := he
  cases b with
  | text ls => exact (blockEvents_inv gf it ls).2 e hb
  | image =>
    simp only [List.mem_singleton] at hb
    subst hb
    trivial

lemma mem_groupsOf (evs : List Flush) (g : List String) (h : g ∈ groupsOf evs) :
    ∃ e ∈ evs, e = Flush.boundary g ∨ e = Flush.cap g ∨ e = Flush.final g := by
  simp only [groupsOf, List.mem_flatMap] at h
  obtain ⟨e, he, hg⟩ := h
  refine ⟨e, he, ?_⟩
  rcases e with g' | g' | g' | _
  · simp only [List.mem_singleton] at hg; subst hg; exact Or.inl rfl
  · simp only [List.mem_singleton] at hg; subst hg; exact Or.inr (Or.inl rfl)
  · simp only [List.mem_singleton] at hg; subst hg; exact Or.inr (Or.inr rfl)
  · simp at hg

lemma goodEv_group (e : Flush) (g : List String) (hge : goodEv e)
    (he : e = Flush.boundary g ∨ e = Flush.cap g ∨ e = Flush.final g) :
    goodGroup g ∧ g.length ≤ 101 := by
  rcases he with rfl | rfl | rfl <;> exact hge

lemma goodGroup_joinSp (g : List String) (h : goodGroup g) : joinSp g ≠ "" := by
  obtain ⟨hd, tl, rfl, hne⟩ := h
  cases tl with
  | nil => simpa [joinSp] using hne
  | cons a rest =>
    have hj : joinSp (hd :: a :: rest) = hd ++ " " ++ joinSp (a :: rest) := rfl
    rw [hj]
    intro hEq
    have hl := congrArg String.length hEq
    have h1 : (" " : String).length = 1 := rfl
    simp [String.length_append, h1] at hl

/-! ### Escaping and markup-stripping lemmas -/

lemma unescChars_nil : unescChars [] = [] := by
  simp [unescChars]

lemma unescChars_not_amp (c : Char) (cs : List Char) (hc : ¬ c = '&') :
    unescChars (c :: cs) = c :: unescChars cs := by
  rw [unescChars]
  simp [hc]

lemma unescChars_amp (rest : List Char) :
    unescChars ('&' :: 'a' :: 'm' :: 'p' :: ';' :: rest) = '&' :: unescChars rest := by
  rw [unescChars]; simp

lemma unescChars_lt (rest : List Char) :
    unescChars ('&' :: 'l' :: 't' :: ';' :: rest) = '<' :: unescChars rest := by
  rw [unescChars]; simp

lemma unescChars_gt (rest : List Char) :
    unescChars ('&' :: 'g' :: 't' :: ';' :: rest) = '>' :: unescChars rest := by
  rw [unescChars]; simp

lemma unescChars_quot (rest : List Char) :
    unescChars ('&' :: 'q' :: 'u' :: 'o' :: 't' :: ';' :: rest) =
      '"' :: unescChars rest := by
  rw [unescChars]; simp

lemma unescChars_apos (rest : List Char) :
    unescChars ('&' :: '#' :: 'x' :: '2' :: '7' :: ';' :: rest) =
      Char.ofNat 39 :: unescChars rest := by
  rw [unescChars]; simp

lemma unescChars_no_amp (l : List Char) (h : ∀ c ∈ l, ¬ c = '&') :
    unescChars l = l := by
  induction l with
  | nil => exact unescChars_nil
  | cons c cs ih =>
    rw [unescChars_not_amp c cs (h c (by simp))]
    rw [ih (fun d hd => h d (by simp [hd]))]

lemma unesc_escChar (c : Char) (rest : List Char) :
    unescChars (escChar c ++ rest) = c :: unescChars rest := by
  by_cases h1 : c = '&'
  · subst h1
    simpa [escChar] using unescChars_amp rest
  · by_cases h2 : c = '<'
    · subst h2
      simpa [escChar] using unescChars_lt rest
    · by_cases h3 : c = '>'
      · subst h3
        simpa [escChar] using unescChars_gt rest
      · by_cases h4 : c = '"'
        · subst h4
          simpa [escChar] using unescChars_quot rest
        · by_cases h5 : c = Char.ofNat 39
          · subst h5
            simpa [escChar] using unescChars_apos rest
          · simp only [escChar, if_neg h1, if_neg h2, if_neg h3, if_neg h4,
              if_neg h5, List.singleton_append]
            exact unescChars_not_amp c rest h1

lemma unesc_escape_data (l : List Char) (rest : List Char) :
    unescChars ((l.map escChar).flatten ++ rest) = l ++ unescChars rest := by
  induction l with
  | nil => simp
  | cons c cs ih =>
    simp only [List.map_cons, List.flatten_cons, List.append_assoc]
    rw [unesc_escChar c _, ih]
    rfl

lemma htmlUnescape_htmlEscape (s : String) : htmlUnescape (htmlEscape s) = s := by
  show String.mk (unescChars (String.mk ((s.data.map escChar).flatten)).data) = s
  have hd : (String.mk ((s.data.map escChar).flatten)).data =
      (s.data.map escChar).flatten := rfl
  rw [hd]
  have := unesc_escape_data s.data []
  rw [List.append_nil] at this
  rw [this, unescChars_nil, List.append_nil]

lemma escChar_ne_angle (c d : Char) (hd : d ∈ escChar c) :
    ¬ d = '<' ∧ ¬ d = '>' := by
  unfold escChar at hd
  split_ifs at hd with h1 h2 h3 h4 h5
  · simp at hd
    rcases hd with rfl | rfl | rfl | rfl | rfl <;> exact ⟨by decide, by decide⟩
  · simp at hd
    rcases hd with rfl | rfl | rfl | rfl <;> exact ⟨by decide, by decide⟩
  · simp at hd
    rcases hd with rfl | rfl | rfl | rfl <;> exact ⟨by decide, by decide⟩
  · simp at hd
    rcases hd with rfl | rfl | rfl | rfl | rfl | rfl <;> exact ⟨by decide, by decide⟩
  · simp at hd
    rcases hd with rfl | rfl | rfl | rfl | rfl | rfl <;> exact ⟨by decide, by decide⟩
  · simp at hd
    subst hd
    exact ⟨h2, h3⟩

lemma escChar_no_amp_of_plain (c d : Char) (hd : d ∈ escChar c)
    (hc : ¬ c = '&') (hlt : ¬ c = '<') (hgt : ¬ c = '>') (hq : ¬ c = '"')
    (ha : ¬ c = Char.ofNat 39) : d = c := by
  simp only [escChar, if_neg hc, if_neg hlt, if_neg hgt, if_neg hq, if_neg ha,
    List.mem_singleton] at hd
  exact hd

lemma htmlEscape_no_angle (s : String) :
    ∀ c ∈ (htmlEscape s).data, ¬ c = '<' ∧ ¬ c = '>' := by
  intro c hc
  have hc2 : c ∈ (s.data.map escChar).flatten := hc
  obtain ⟨a, ha, hca⟩ := List.mem_flatten.1 hc2
  obtain ⟨d, _, rfl⟩ := List.mem_map.1 ha
  exact escChar_ne_angle d c hca

lemma stripTagsChars_no_lt (l r : List Char) (h : ∀ c ∈ l, ¬ c = '<') :
    stripTagsChars false (l ++ r) = l ++ stripTagsChars false r := by
  induction l with
  | nil => simp
  | cons c cs ih =>
    have hc := h c (by simp)
    simp [stripTagsChars, hc, ih (fun d hd => h d (by simp [hd]))]

lemma stripTagsChars_in_tag (l r : List Char) (h : ∀ c ∈ l, ¬ c = '>') :
    stripTagsChars true (l ++ r) = stripTagsChars true r := by
  induction l with
  | nil => simp
  | cons c cs ih =>
    have hc := h c (by simp)
    simp [stripTagsChars, hc, ih (fun d hd => h d (by simp [hd]))]

lemma stripTagsChars_tag (inner r : List Char) (h : ∀ c ∈ inner, ¬ c = '>') :
    stripTagsChars false ('<' :: inner ++ '>' :: r) = stripTagsChars false r := by
  have h1 : stripTagsChars false ('<' :: (inner ++ '>' :: r)) =
      stripTagsChars true (inner ++ '>' :: r) := by simp [stripTagsChars]
  have h2 := stripTagsChars_in_tag inner ('>' :: r) h
  have h3 : stripTagsChars true ('>' :: r) = stripTagsChars false r := by
    simp [stripTagsChars]
  simpa [h2, h3] using h1

lemma stripTags_p (s : String) : stripTags (htmlP s) = htmlEscape s ++ "\n" := by
  show String.mk (stripTagsChars false (htmlP s).data) = htmlEscape s ++ "\n"
  have hd : (htmlP s).data =
      '<' :: ['p'] ++ '>' :: ((htmlEscape s).data ++ ['<'] ++ ['/', 'p'] ++ ['>', '\n']) := by
    show ("<p>" ++ htmlEscape s ++ "</p>\n").data = _
    simp [String.data_append]
  rw [hd]
  rw [stripTagsChars_tag ['p'] _ (by decide)]
  have hmid := stripTagsChars_no_lt (htmlEscape s).data
    (['<'] ++ ['/', 'p'] ++ ['>', '\n'])
    (fun c hc => (htmlEscape_no_angle s c hc).1)
  simp only [List.append_assoc] at hmid ⊢
  rw [hmid]
  have htail : stripTagsChars false (['<'] ++ ['/', 'p'] ++ ['>', '\n']) = ['\n'] := by
    decide
  simp only [List.append_assoc] at htail
  rw [htail]
  show String.mk ((htmlEscape s).data ++ "\n".data) = _
  rfl

lemma removeTrailNl_concat (s : String) : removeTrailNl (s ++ "\n") = s := by
  unfold removeTrailNl
  have hd : (s ++ "\n").data = s.data ++ ['\n'] := by
    show s.data ++ "\n".data = _
    rfl
  rw [hd, List.getLast?_concat, if_pos rfl, List.dropLast_concat]

lemma stripFrag_p (s : String) : stripFrag (htmlP s) = s := by
  unfold stripFrag
  rw [stripTags_p, removeTrailNl_concat, htmlUnescape_htmlEscape]

lemma htmlUnescape_empty : htmlUnescape "" = "" := by
  show String.mk (unescChars ("" : String).data) = ""
  rw [show ("" : String).data = [] from rfl, unescChars_nil]

lemma natDigitsAux_digits (n : Nat) :
    ∀ (fuel : Nat), ∀ c ∈ natDigitsAux fuel n,
      ∃ d, d < 10 ∧ c = Char.ofNat (48 + d) := by
  induction n using Nat.strong_induction_on with
  | _ n ih =>
    intro fuel c hc
    cases fuel with
    | zero => simp [natDigitsAux] at hc
    | succ f =>
      simp only [natDigitsAux] at hc
      split_ifs at hc with h
      · simp at hc
        exact ⟨n, h, hc⟩
      · rcases List.mem_append.1 hc with hc | hc
        · exact ih (n / 10) (Nat.div_lt_self (by omega) (by omega)) n c hc
        · simp at hc
          exact ⟨n % 10, Nat.mod_lt n (by omega), hc⟩

lemma digit_ne_angle (d : Nat) (hd : d < 10) :
    ¬ Char.ofNat (48 + d) = '>' ∧ ¬ Char.ofNat (48 + d) = '<' := by
  interval_cases d <;> exact ⟨by decide, by decide⟩

lemma numStr_no_angle (n : Nat) :
    ∀ c ∈ (numStr n).data, ¬ c = '>' ∧ ¬ c = '<' := by
  intro c hc
  have hc2 : c ∈ natDigitsAux (n + 1) n := hc
  obtain ⟨d, hd, rfl⟩ := natDigitsAux_digits n (n + 1) c hc2
  exact digit_ne_angle d hd

lemma stripFrag_open (pn : Nat) : stripFrag (pageOpenFrag pn) = "" := by
  have hd : (pageOpenFrag pn).data =
      '<' :: (("div class=\"page\" id=\"page_" : String).data ++
          ((numStr (pn + 1)).data ++
            (("\" data-page-number=\"" : String).data ++
              ((numStr (pn + 1)).data ++ ['"'])))) ++
        '>' :: ['\n'] := by
    show ("<div class=\"page\" id=\"page_" ++ numStr (pn + 1) ++
        "\" data-page-number=\"" ++ numStr (pn + 1) ++ "\">\n").data = _
    have e1 : ("<div class=\"page\" id=\"page_" : String).data =
        '<' :: ("div class=\"page\" id=\"page_" : String).data := by decide
    have e3 : ("\">\n" : String).data = ['"', '>', '\n'] := by decide
    simp [String.data_append, e1, e3]
  have hInner : ∀ c ∈ ("div class=\"page\" id=\"page_" : String).data ++
      ((numStr (pn + 1)).data ++
        (("\" data-page-number=\"" : String).data ++
          ((numStr (pn + 1)).data ++ ['"']))), ¬ c = '>' := by
    intro c hc
    simp only [List.mem_append, List.mem_singleton] at hc
    rcases hc with hc | hc | hc | hc | hc
    · exact (by decide :
        ∀ c ∈ ("div class=\"page\" id=\"page_" : String).data, ¬ c = '>') c hc
    · exact (numStr_no_angle _ c hc).1
    · exact (by decide :
        ∀ c ∈ ("\" data-page-number=\"" : String).data, ¬ c = '>') c hc
    · exact (numStr_no_angle _ c hc).1
    · subst hc; decide
  unfold stripFrag
  have hst : stripTags (pageOpenFrag pn) = "\n" := by
    show String.mk (stripTagsChars false (pageOpenFrag pn).data) = "\n"
    rw [hd, stripTagsChars_tag _ _ hInner]
    rfl
  rw [hst]
  have hrm : removeTrailNl "\n" = "" := by decide
  rw [hrm, htmlUnescape_empty]

lemma stripFrag_close : stripFrag "</div>\n" = "" := by
  unfold stripFrag
  have h1 : stripTags "</div>\n" = "\n" := by decide
  have h2 : removeTrailNl "\n" = "" := by decide
  rw [h1, h2, htmlUnescape_empty]

lemma stripFrag_image : stripFrag imageDivFrag = "[Image]" := by
  unfold stripFrag
  have h1 : stripTags imageDivFrag = "[Image]\n" := by decide
  have h2 : removeTrailNl "[Image]\n" = "[Image]" := by decide
  rw [h1, h2]
  show String.mk (unescChars ("[Image]" : String).data) = "[Image]"
  rw [unescChars_no_amp _ (by decide)]

lemma stripFrag_renderEv (e : Flush) (hge : goodEv e) :
    ((renderEvHtml e).map stripFrag).filter (fun t => t != "") =
      (renderEvText e).filter (fun t => t != "") := by
  cases e with
  | boundary g =>
    have hne := goodGroup_joinSp g hge.1
    simp [renderEvHtml, renderEvText, stripFrag_p, hne]
  | cap g =>
    have hne := goodGroup_joinSp g hge.1
    simp [renderEvHtml, renderEvText, stripFrag_p, hne]
  | final g =>
    have hne := goodGroup_joinSp g hge.1
    simp [renderEvHtml, renderEvText, stripFrag_p, hne]
  | image =>
    simp [renderEvHtml, renderEvText, stripFrag_image]

lemma strip_flatMap (evs : List Flush) (hg : ∀ e ∈ evs, goodEv e) :
    ((evs.flatMap renderEvHtml).map stripFrag).filter (fun t => t != "") =
      (evs.flatMap renderEvText).filter (fun t => t != "") := by
  induction evs with
  | nil => simp
  | cons e es ih =>
    simp only [List.flatMap_cons, List.map_append, List.filter_append]
    rw [stripFrag_renderEv e (hg e (by simp)), ih (fun x hx => hg x (by simp [hx]))]

lemma stripHtml_eq_stripText (pn : Nat) (gf it : Rat) (blocks : List Block) :
    stripHtmlItems (extractPageHtml pn gf it blocks) =
      stripTextItems (pageItemsText gf it blocks) := by
  unfold stripHtmlItems stripTextItems extractPageHtml
  rw [pageItemsHtml_eq, pageItemsText_eq]
  simp only [List.map_cons, List.map_append, List.filter_cons, List.filter_append,
    stripFrag_open pn, stripFrag_close, List.map_nil, List.filter_nil]
  rw [strip_flatMap _ (blocksEvents_good gf it blocks)]
  simp

/-! ### Running the machine on the 250-line non-breaking block -/

lemma wstep_small (k : Nat) (out : List Flush) (hk1 : 1 ≤ k) (hk : k ≤ 99) :
    stepLineEv (3/2) 10 0 (⟨List.replicate k "word", 2, false⟩, out) wline =
      (⟨List.replicate (k + 1) "word", 2, false⟩, out) := by
  have ht : lineTextOf wline = "word" := by decide
  have hnp : newParaOf (3/2) 10 0 ⟨List.replicate k "word", 2, false⟩ wline = false := by
    unfold newParaOf
    have hc : (⟨List.replicate k "word", 2, false⟩ : ParaState).para_start = false ∧
        (⟨List.replicate k "word", 2, false⟩ : ParaState).prev_y1 > 0 :=
      ⟨rfl, by norm_num⟩
    rw [if_pos hc]
    have hgap : decide (wline.bbox.y0 - (2 : Rat) >
        (3/2) * (wline.bbox.y1 - wline.bbox.y0)) = false := by decide
    have hind : decide (wline.bbox.x0 - (0 : Rat) > (10 : Rat)) = false := by decide
    have hpunct : lastEndsPunct (List.replicate k "word") = false := by
      unfold lastEndsPunct
      cases k with
      | zero => omega
      | succ n =>
        rw [List.replicate_succ', List.getLast?_concat]
        decide
    rw [hgap, hind, hpunct]
    rfl
  have h1 : ¬ lineTextOf wline = "" := by decide
  have h2 : ¬ (newParaOf (3/2) 10 0 ⟨List.replicate k "word", 2, false⟩ wline = true ∧
      (⟨List.replicate k "word", 2, false⟩ : ParaState).para_text ≠ []) := by
    rintro ⟨hc, _⟩
    rw [hnp] at hc
    exact absurd hc (by decide)
  have hne : List.replicate k "word" ≠ ([] : List String) := by
    intro h
    have := congrArg List.length h
    simp at this
    omega
  have happ : appendEntry (List.replicate k "word") (lineTextOf wline) =
      List.replicate (k + 1) "word" := by
    rw [ht]
    unfold appendEntry
    rw [if_neg hne, if_neg (by decide : ¬ endsWithHyphen "word" = true),
      ← List.replicate_succ']
  have h3 : ¬ (appendEntry (List.replicate k "word") (lineTextOf wline)).length > 100 := by
    rw [happ]
    simp
    omega
  rw [stepLineEv_eq_app (3/2) 10 0 _ out wline h1 h2 h3, happ]
  rfl

lemma wrun (n : Nat) :
    ∀ (k : Nat) (out : List Flush), 1 ≤ k → k + n ≤ 100 →
      (List.replicate n wline).foldl (stepLineEv (3/2) 10 0)
          (⟨List.replicate k "word", 2, false⟩, out) =
        (⟨List.replicate (k + n) "word", 2, false⟩, out) := by
  induction n with
  | zero => intro k out _ _; simp
  | succ n ih =>
    intro k out h1 h2
    rw [List.replicate_succ, List.foldl_cons, wstep_small k out h1 (by omega)]
    have hres := ih (k + 1) out (by omega) (by omega)
    rw [hres]
    have harith : k + 1 + n = k + (n + 1) := by omega
    rw [harith]

lemma wstep_init :
    stepLineEv (3/2) 10 0 (initState, []) wline =
      (⟨List.replicate 1 "word", 2, false⟩, []) := by decide

set_option maxRecDepth 4000 in
lemma wstep_cap :
    stepLineEv (3/2) 10 0 (⟨List.replicate 100 "word", 2, false⟩, []) wline =
      (⟨[], 2, false⟩, [Flush.cap (List.replicate 101 "word")]) := by decide

lemma wstep_zero :
    stepLineEv (3/2) 10 0 (⟨[], 2, false⟩, []) wline =
      (⟨List.replicate 1 "word", 2, false⟩, []) := by decide

lemma wstep_cap_out (out : List Flush) :
    stepLineEv (3/2) 10 0 (⟨List.replicate 100 "word", 2, false⟩, out) wline =
      (⟨[], 2, false⟩, out ++ [Flush.cap (List.replicate 101 "word")]) := by
  rw [stepLineEv_out (3/2) 10 0 ⟨List.replicate 100 "word", 2, false⟩ out wline,
    wstep_cap]

lemma wstep_zero_out (out : List Flush) :
    stepLineEv (3/2) 10 0 (⟨[], 2, false⟩, out) wline =
      (⟨List.replicate 1 "word", 2, false⟩, out) := by
  rw [stepLineEv_out (3/2) 10 0 ⟨[], 2, false⟩ out wline, wstep_zero]
  simp

lemma rep1_fold (acc : ParaState × List Flush) :
    (List.replicate 1 wline).foldl (stepLineEv (3/2) 10 0) acc =
      stepLineEv (3/2) 10 0 acc wline := by
  rw [show List.replicate 1 wline = [wline] from rfl]
  simp

lemma capLines_fold :
    capLines.foldl (stepLineEv (3/2) 10 0) (initState, []) =
      (⟨List.replicate 48 "word", 2, false⟩,
        [Flush.cap (List.replicate 101 "word"),
          Flush.cap (List.replicate 101 "word")]) := by
  have hsplit : (List.replicate 250 wline) =
      List.replicate 1 wline ++ (List.replicate 99 wline ++ (List.replicate 1 wline ++
        (List.replicate 1 wline ++ (List.replicate 99 wline ++ (List.replicate 1 wline ++
          (List.replicate 1 wline ++ List.replicate 47 wline)))))) := by
    simp only [← List.replicate_add]
  show (List.replicate 250 wline).foldl (stepLineEv (3/2) 10 0) (initState, []) = _
  rw [hsplit]
  simp only [List.foldl_append, rep1_fold]
  rw [wstep_init, wrun 99 1 [] (by omega) (by omega),
    show (1 : Nat) + 99 = 100 from rfl, wstep_cap_out,
    show ([] : List Flush) ++ [Flush.cap (List.replicate 101 "word")] =
      [Flush.cap (List.replicate 101 "word")] from rfl,
    wstep_zero_out, wrun 99 1 [Flush.cap (List.replicate 101 "word")] (by omega) (by omega),
    show (1 : Nat) + 99 = 100 from rfl, wstep_cap_out, wstep_zero_out,
    wrun 47 1 _ (by omega) (by omega), show (1 : Nat) + 47 = 48 from rfl]
  rfl

lemma capLines_events :
    blockEvents (3/2) 10 capLines =
      [Flush.cap (List.replicate 101 "word"),
        Flush.cap (List.replicate 101 "word"),
        Flush.final (List.replicate 48 "word")] := by
  have hfx : firstX0 capLines = 0 := by decide
  simp only [blockEvents, hfx, capLines_fold]
  rw [if_pos (by intro h; have := congrArg List.length h; simp at this)]
  rfl

lemma capLines_group_lengths :
    (groupsOf (blockEvents (3/2) 10 capLines)).map List.length = [101, 101, 48] := by
  rw [capLines_events]
  simp [groupsOf]

/-! ### Page-level error handling lemmas -/

lemma convert_fold_out (gf it : Rat) (l : List PageResult) :
    ∀ (a : String),
      l.foldl (fun acc r => acc ++ extractPageTextSafe gf it r ++ pageBreakMarker) a =
        a ++ l.foldl (fun acc r => acc ++ extractPageTextSafe gf it r ++ pageBreakMarker) "" := by
  induction l with
  | nil =>
    intro a
    show a = a ++ ""
    have : (a ++ "").data = a.data := by
      show a.data ++ [] = a.data
      simp
    exact ((String.ext this).symm)
  | cons r rest ih =>
    intro a
    simp only [List.foldl_cons]
    rw [ih (a ++ extractPageTextSafe gf it r ++ pageBreakMarker),
      ih ("" ++ extractPageTextSafe gf it r ++ pageBreakMarker)]
    simp [String.append_assoc]

lemma stepLineTextE_bad (gf it : Rat) (fl : Option BBox)
    (acc : ParaState × List String) (sp : List Span)
    (h : ¬ lineTextP ⟨sp, none⟩ = "") :
    stepLineTextE gf it fl acc ⟨sp, none⟩ = Except.error "KeyError: bbox" := by
  unfold stepLineTextE
  rw [if_neg h]
  by_cases hb : acc.1.para_start = false ∧ acc.1.prev_y1 > 0
  · rw [if_pos hb]
    rfl
  · rw [if_neg hb]
    rfl

lemma foldlM_bad {α β : Type} (f : β → α → Except String β) (a : α)
    (hf : ∀ b, ∃ e, f b a = Except.error e) (l1 l2 : List α) :
    ∀ (init : β), ∃ e, (l1 ++ a :: l2).foldlM f init = Except.error e := by
  intro init
  rw [List.foldlM_append]
  cases h1 : l1.foldlM f init with
  | error e => exact ⟨e, rfl⟩
  | ok b =>
    obtain ⟨e, he⟩ := hf b
    refine ⟨e, ?_⟩
    show (a :: l2).foldlM f b = Except.error e
    rw [List.foldlM_cons, he]
    rfl

lemma blockItemsTextE_bad (gf it : Rat) (ls1 ls2 : List LineP) (sp : List Span)
    (h : ¬ lineTextP ⟨sp, none⟩ = "") :
    ∃ e, blockItemsTextE gf it (ls1 ++ (⟨sp, none⟩ : LineP) :: ls2) =
      Except.error e := by
  unfold blockItemsTextE
  obtain ⟨e, he⟩ := foldlM_bad
    (stepLineTextE gf it
      ((ls1 ++ (⟨sp, none⟩ : LineP) :: ls2).head?.bind LineP.bbox))
    (⟨sp, none⟩ : LineP)
    (fun b => ⟨"KeyError: bbox", stepLineTextE_bad gf it _ b sp h⟩)
    ls1 ls2 (initState, [])
  exact ⟨e, by rw [he]; rfl⟩

lemma pageItemsTextE_bad (gf it : Rat) (bs1 bs2 : List BlockP)
    (ls1 ls2 : List LineP) (sp : List Span) (h : ¬ lineTextP ⟨sp, none⟩ = "") :
    ∃ e, pageItemsTextE gf it
        (bs1 ++ BlockP.text (ls1 ++ (⟨sp, none⟩ : LineP) :: ls2) :: bs2) =
      Except.error e := by
  unfold pageItemsTextE
  obtain ⟨eb, hb⟩ := blockItemsTextE_bad gf it ls1 ls2 sp h
  exact foldlM_bad _ (BlockP.text (ls1 ++ (⟨sp, none⟩ : LineP) :: ls2))
    (fun out => ⟨eb, by
      show (blockItemsTextE gf it (ls1 ++ (⟨sp, none⟩ : LineP) :: ls2)).map
        (fun its => out ++ its) = Except.error eb
      rw [hb]
      rfl⟩)
    bs1 bs2 []

/-! ### The boundary decision, spelled out -/

lemma lastEndsPunct_iff (para : List String) :
    lastEndsPunct para = true ↔
      ∃ last c, para.getLast? = some last ∧ last ≠ "" ∧
        pyLast last = some c ∧ c ∈ punctChars := by
  unfold lastEndsPunct
  cases hgl : para.getLast? with
  | none => simp
  | some last =>
    cases hpl : pyLast last with
    | none => simp [hpl]
    | some c =>
      simp only [hpl, Bool.and_eq_true, bne_iff_ne, ne_eq]
      constructor
      · rintro ⟨hne, hct⟩
        refine ⟨last, c, rfl, hne, hpl, ?_⟩
        simpa [List.contains, List.elem_iff] using hct
      · rintro ⟨l', c', hl', hne, hpl', hmem⟩
        injection hl' with hl'
        subst hl'
        rw [hpl] at hpl'
        injection hpl' with hc'
        subst hc'
        refine ⟨hne, ?_⟩
        simpa [List.contains, List.elem_iff] using hmem

lemma str_append_empty (s : String) : s ++ "" = s := by
  apply String.ext
  show s.data ++ [] = s.data
  simp

/-! ### The claims -/

/-- C1: for every text block and every line after the first non-skipped
line (`para_start` is off), the reconstructor declares a new-paragraph
boundary iff `prev_y1 > 0` and at least one of: the vertical gap exceeds
`gapFactor` times the line height, the horizontal indent relative to the
block's first line exceeds `indentThreshold`, or the last accumulated line
text is non-empty and its final character is one of `.?!:;`.  In
particular, the two snug lines of `punctLines` split into two paragraphs
because the first ends in a period. -/
theorem c1_boundary_decision :
    (∀ (gf it fx : Rat) (s : ParaState) (l : Line), s.para_start = false →
      (newParaOf gf it fx s l = true ↔
        (s.prev_y1 > 0 ∧
          (l.bbox.y0 - s.prev_y1 > gf * (l.bbox.y1 - l.bbox.y0) ∨
           l.bbox.x0 - fx > it ∨
           (∃ last c, s.para_text.getLast? = some last ∧ last ≠ "" ∧
             pyLast last = some c ∧ c ∈ punctChars))))) ∧
    blockItemsText (3/2) 10 punctLines =
      ["This is a sentence.", "", "Next one starts."] := by
  constructor
  · intro gf it fx s l hps
    unfold newParaOf
    rw [hps]
    by_cases hp : s.prev_y1 > 0
    · rw [if_pos ⟨rfl, hp⟩]
      simp only [Bool.or_eq_true, decide_eq_true_eq, lastEndsPunct_iff]
      tauto
    · rw [if_neg (fun hc => hp hc.2)]
      simp [hp]
  · decide

/-- Witness for C1: a concrete mid-block state whose last accumulated text
ends in a period, and a snug following line — the boundary fires. -/
theorem c1_boundary_decision_witness :
    newParaOf (3/2) 10 0 ⟨["End."], 5, false⟩ (pline "Next" 0 6 7) = true := by
  have h := c1_boundary_decision.1 (3/2) 10 0 ⟨["End."], 5, false⟩
    (pline "Next" 0 6 7) rfl
  exact h.mpr ⟨by norm_num,
    Or.inr (Or.inr ⟨"End.", '.', rfl, by decide, by decide, by decide⟩)⟩

/-- C2: for every text block, the flushed groups cover exactly the
non-empty trimmed line texts, each exactly once and in order, each entry
equal to its source line up to the hyphen-strip transformation. -/
theorem c2_block_completeness (gf it : Rat) (lines : List Line) :
    List.Forall₂ entryRel (nonEmptyTexts lines)
      (groupsOf (blockEvents gf it lines)).flatten :=
  (blockEvents_inv gf it lines).1

/-- C3: evaluation at the failing input of the hyphenation claim: the code
emits "informa- tion", not "information" — the first accumulated line
keeps its hyphen and `" ".join` inserts a space at every join. -/
theorem c3_hyphen_eval :
    blockItemsText (3/2) 10 hyphLines = ["informa- tion"] ∧
      ("informa- tion" : String) ≠ "information" :=
  ⟨by decide, by decide⟩

/-- C4 counterexample: the 250-line non-breaking block yields emitted
paragraphs of 101, 101 and 48 source lines — not every paragraph has at
most 100. -/
theorem c4_cap_counterexample :
    (groupsOf (blockEvents (3/2) 10 capLines)).map List.length = [101, 101, 48] ∧
      ¬ (∀ g ∈ groupsOf (blockEvents (3/2) 10 capLines), g.length ≤ 100) := by
  refine ⟨capLines_group_lengths, fun hall => ?_⟩
  have hmem : List.replicate 101 "word" ∈ groupsOf (blockEvents (3/2) 10 capLines) := by
    rw [capLines_events]
    simp [groupsOf]
  have hle := hall _ hmem
  rw [List.length_replicate] at hle
  omega

/-- C4 (amended): once the in-progress paragraph exceeds 100 line texts it
is force-emitted immediately and accumulation restarts empty; every
emitted paragraph holds at most 101 (not 100) source lines; the 250-line
non-breaking block yields exactly 3 paragraphs. -/
theorem c4_cap_amended :
    (∀ (bb : BBox) (pt : List String) (out : List Flush), pt.length > 100 →
        capCheckEv bb pt out = (⟨[], bb.y1, false⟩, out ++ [Flush.cap pt])) ∧
    (∀ (gf it : Rat) (lines : List Line) (g : List String),
        g ∈ groupsOf (blockEvents gf it lines) → g.length ≤ 101) ∧
    (groupsOf (blockEvents (3/2) 10 capLines)).length = 3 := by
  refine ⟨fun bb pt out h => by simp [capCheckEv, h], fun gf it lines g hg => ?_, ?_⟩
  · obtain ⟨e, he, hor⟩ := mem_groupsOf _ g hg
    exact (goodEv_group e g ((blockEvents_inv gf it lines).2 e he) hor).2
  · rw [capLines_events]
    rfl

/-- Witness for the amended C4: the cap fires on a concrete 101-entry
paragraph, and the concrete 101-entry emitted group satisfies the 101
bound. -/
theorem c4_cap_amended_witness :
    capCheckEv ⟨0, 1, 0, 2⟩ (List.replicate 101 "word") [] =
        (⟨[], 2, false⟩, [Flush.cap (List.replicate 101 "word")]) ∧
      (List.replicate 101 "word").length ≤ 101 := by
  constructor
  · exact c4_cap_amended.1 ⟨0, 1, 0, 2⟩ (List.replicate 101 "word") [] (by simp)
  · exact c4_cap_amended.2.1 (3/2) 10 capLines (List.replicate 101 "word")
      (by rw [capLines_events]; simp [groupsOf])

/-- C5: for every page, the HTML code path and the plain-text code path,
stripped of markup (tags and escaping) and blank separator lines, yield
the identical paragraph sequence. -/
theorem c5_mode_equivalence (pn : Nat) (gf it : Rat) (blocks : List Block) :
    stripHtmlItems (extractPageHtml pn gf it blocks) =
      stripTextItems (pageItemsText gf it blocks) :=
  stripHtml_eq_stripText pn gf it blocks

/-- C6: an image block contributes exactly its placeholder (plus the
separator line in text mode), independently of the surrounding blocks, and
never merges with a text paragraph. -/
theorem c6_image_isolation (gf it : Rat) (bs1 bs2 : List Block) :
    pageItemsText gf it (bs1 ++ Block.image :: bs2) =
        pageItemsText gf it bs1 ++ ["[Image]", ""] ++ pageItemsText gf it bs2 ∧
      pageItemsHtml gf it (bs1 ++ Block.image :: bs2) =
        pageItemsHtml gf it bs1 ++ [imageDivFrag] ++ pageItemsHtml gf it bs2 := by
  constructor <;>
    simp [pageItemsText, pageItemsHtml, List.flatMap_append, List.flatMap_cons]

/-- C7: a line whose concatenated trimmed text is empty leaves the whole
state (in-progress paragraph, previous bottom, start flag) unchanged and
emits nothing, in both code paths. -/
theorem c7_empty_line_skip (gf it fx : Rat) (s : ParaState)
    (outT outH : List String) (l : Line) (h : lineTextOf l = "") :
    stepLineText gf it fx (s, outT) l = (s, outT) ∧
      stepLineHtml gf it fx (s, outH) l = (s, outH) :=
  ⟨by simp [stepLineText, h], by simp [stepLineHtml, h]⟩

/-- Witness for C7 at a line with a single empty span. -/
theorem c7_empty_line_skip_witness :
    stepLineText (3/2) 10 0 (initState, []) (pline "" 0 1 2) = (initState, []) ∧
      stepLineHtml (3/2) 10 0 (initState, []) (pline "" 0 1 2) = (initState, []) :=
  c7_empty_line_skip (3/2) 10 0 initState [] [] (pline "" 0 1 2) (by decide)

/-- C8: a page whose extraction raises yields the empty string, and the
conversion loop still writes every other page and the page-break marker of
the failed page — a page failure never aborts the run. -/
theorem c8_page_failure_isolated (gf it : Rat) (ps1 ps2 : List PageResult)
    (msg : String) :
    extractPageTextSafe gf it (PageResult.err msg) = "" ∧
      convert_to_text gf it (ps1 ++ PageResult.err msg :: ps2) =
        convert_to_text gf it ps1 ++ pageBreakMarker ++ convert_to_text gf it ps2 := by
  refine ⟨rfl, ?_⟩
  unfold convert_to_text
  rw [List.foldl_append, List.foldl_cons, convert_fold_out gf it ps2]
  simp [str_append_empty, String.append_assoc, extractPageTextSafe]

/-- C9 counterexample: on a page whose text block holds a well-formed
"Hello" line followed by a line with no bounding box, extraction raises a
`KeyError` internally; the page-level handler turns the entire page into
the empty string, so the well-formed line is discarded too. -/
theorem c9_missing_bbox_counterexample :
    pageItemsTextE (3/2) 10 c9page = Except.error "KeyError: bbox" ∧
      extractPageTextP (3/2) 10 c9page = "" := by
  have h : pageItemsTextE (3/2) 10 c9page = Except.error "KeyError: bbox" := by
    rfl
  refine ⟨h, ?_⟩
  unfold extractPageTextP
  rw [h]

/-- C9 (amended): a non-empty line with a missing bounding box always
makes the per-page extraction raise; the page-level handler catches it and
the whole page — its other lines included — yields the empty string. -/
theorem c9_missing_bbox_amended (gf it : Rat) (bs1 bs2 : List BlockP)
    (ls1 ls2 : List LineP) (sp : List Span) (h : ¬ lineTextP ⟨sp, none⟩ = "") :
    (∃ e, pageItemsTextE gf it
        (bs1 ++ BlockP.text (ls1 ++ (⟨sp, none⟩ : LineP) :: ls2) :: bs2) =
      Except.error e) ∧
      extractPageTextP gf it
        (bs1 ++ BlockP.text (ls1 ++ (⟨sp, none⟩ : LineP) :: ls2) :: bs2) = "" := by
  obtain ⟨e, he⟩ := pageItemsTextE_bad gf it bs1 bs2 ls1 ls2 sp h
  refine ⟨⟨e, he⟩, ?_⟩
  unfold extractPageTextP
  rw [he]

/-- Witness for the amended C9 at a one-line block with no bounding box. -/
theorem c9_missing_bbox_amended_witness :
    (∃ e, pageItemsTextE (3/2) 10
        ([] ++ BlockP.text ([] ++ (⟨[⟨"world"⟩], none⟩ : LineP) :: []) :: []) =
      Except.error e) ∧
      extractPageTextP (3/2) 10
        ([] ++ BlockP.text ([] ++ (⟨[⟨"world"⟩], none⟩ : LineP) :: []) :: []) = "" :=
  c9_missing_bbox_amended (3/2) 10 [] [] [] [] [⟨"world"⟩] (by decide)

/-- C10: every paragraph emitted for a text block is a non-empty group
whose joined string is non-empty; and a line processed while the
in-progress paragraph is empty (as right after a cap-forced flush) emits
no flush at all. -/
theorem c10_no_empty_paragraph :
    (∀ (gf it : Rat) (lines : List Line) (g : List String),
        g ∈ groupsOf (blockEvents gf it lines) → g ≠ [] ∧ joinSp g ≠ "") ∧
    (∀ (gf it fx : Rat) (s : ParaState) (out : List Flush) (l : Line),
        s.para_text = [] → (stepLineEv gf it fx (s, out) l).2 = out) := by
  constructor
  · intro gf it lines g hg
    obtain ⟨e, he, hor⟩ := mem_groupsOf _ g hg
    have hge := (blockEvents_inv gf it lines).2 e he
    obtain ⟨hd, tl, rfl, hne⟩ := (goodEv_group _ _ hge hor).1
    exact ⟨by simp, goodGroup_joinSp _ ⟨hd, tl, rfl, hne⟩⟩
  · intro gf it fx s out l hp
    by_cases h1 : lineTextOf l = ""
    · simp [stepLineEv, h1]
    · have h2 : ¬ (newParaOf gf it fx s l = true ∧ s.para_text ≠ []) := by
        rintro ⟨_, hne⟩
        exact hne hp
      have h3 : ¬ (appendEntry s.para_text (lineTextOf l)).length > 100 := by
        rw [hp]
        simp [appendEntry]
      rw [stepLineEv_eq_app gf it fx s out l h1 h2 h3]

/-- Witness for C10 on a one-line block and an empty-paragraph step. -/
theorem c10_no_empty_paragraph_witness :
    ((["hello"] : List String) ≠ [] ∧ joinSp ["hello"] ≠ "") ∧
      (stepLineEv (3/2) 10 0 (⟨[], 2, false⟩, []) wline).2 = [] := by
  constructor
  · exact c10_no_empty_paragraph.1 (3/2) 10 [pline "hello" 0 1 2] ["hello"] (by decide)
  · exact c10_no_empty_paragraph.2 (3/2) 10 0 ⟨[], 2, false⟩ [] wline rfl

end PdfConvert
